import Mathlib

/-!
Verification of the laibrary documentation-extraction pipeline.

The Rust sources are embedded shallowly: Rust structs become Lean structures,
pure functions become Lean functions, `Result` becomes `Except`, and the
`HashMap` used by namespace construction is modelled as an insertion-ordered
association list together with a predicate describing every order in which
`HashMap::into_values` may hand the map contents back.
-/

namespace Laibrary

/-- Symbol (types.rs, as used by formatting.rs and namespace_construction.rs):
a public item carrying its name and the verbatim source text of its declaration. -/
structure Symbol where
  name : String
  source_code : String
deriving DecidableEq, Repr

/-- ResolvedSymbol (languages/rust/api/symbol_resolution.rs): one logical symbol
plus the module paths (empty string = crate root) where it is publicly reachable. -/
structure ResolvedSymbol where
  symbol : Symbol
  modules : List String
deriving DecidableEq, Repr

/-- SymbolResolution (languages/rust/api/symbol_resolution.rs): all resolved
symbols plus the module path → doc comment map. The Rust HashMap of doc comments
is modelled as an association list queried with List.lookup. -/
structure SymbolResolution where
  symbols : List ResolvedSymbol
  doc_comments : List (String × String)
deriving DecidableEq, Repr

/-- Namespace (types.rs): a fully qualified module path together with the symbols
grouped under it, the missing symbols bookkeeping list, and an optional doc comment. -/
structure Namespace where
  name : String
  symbols : List Symbol
  missing_symbols : List Symbol
  doc_comment : Option String
deriving DecidableEq, Repr

/-- PackageMetadata (types.rs): name, version and root documentation text. -/
structure PackageMetadata where
  name : String
  version : String
  documentation : String
deriving DecidableEq, Repr

/-- Modelled from the spec: the error taxonomy of §7 (error.rs is not among the
sources; only these four failure classes are specified). -/
inductive LaibraryError where
  | Parse : String → LaibraryError
  | UnsupportedLanguage : String → LaibraryError
  | UnresolvedReExportCycle : String → LaibraryError
  | Formatting : String → LaibraryError
deriving DecidableEq, Repr

/-! ## Namespace construction (languages/rust/api/namespace_construction.rs) -/

/-- The fully qualified namespace name computed inside construct_namespaces:
the crate name itself for the crate root (empty module path), otherwise
crate_name::module_path. -/
def qualify (crate_name module_path : String) : String :=
  if module_path = "" then crate_name else crate_name ++ "::" ++ module_path

/-- The namespace.symbols.push of construct_namespaces: append the symbol to the
(first, hence unique) namespace with the given name in the accumulator. -/
def pushSymbol (ns_name : String) (s : Symbol) : List Namespace → List Namespace
  | [] => []
  | ns :: rest =>
    if ns.name = ns_name then { ns with symbols := ns.symbols ++ [s] } :: rest
    else ns :: pushSymbol ns_name s rest

/-- The body of the two nested for_each loops of construct_namespaces: the
namespace_map.entry(..).or_insert_with(..) followed by symbols.push, with the
HashMap modelled as an insertion-ordered association list keyed by namespace name. -/
def insertSymbol (dc : List (String × String)) (crate_name : String)
    (s : Symbol) (acc : List Namespace) (module_path : String) : List Namespace :=
  if qualify crate_name module_path ∈ acc.map Namespace.name then
    pushSymbol (qualify crate_name module_path) s acc
  else
    acc ++ [{ name := qualify crate_name module_path, symbols := [s],
              missing_symbols := [],
              doc_comment := List.lookup module_path dc }]

/-- construct_namespaces (namespace_construction.rs): group the resolved symbols
by namespace, creating each namespace on first reference with the doc comment
looked up from the resolution. This embedding returns the map contents in
insertion order; the Rust function ends with namespace_map.into_values(),
whose order is whatever HashMap iteration yields — see ConstructOutput. -/
def construct_namespaces (res : SymbolResolution) (crate_name : String) : List Namespace :=
  res.symbols.foldl
    (fun acc rs => rs.modules.foldl (insertSymbol res.doc_comments crate_name rs.symbol) acc)
    []

/-- The possible return values of the Rust construct_namespaces: into_values()
iterates the HashMap in an unspecified order, so the returned Vec is some
permutation of the map contents. -/
def ConstructOutput (res : SymbolResolution) (crate_name : String)
    (out : List Namespace) : Prop :=
  (construct_namespaces res crate_name).Perm out

/-! ## Loop-event view of namespace construction -/

/-- The flattened iteration order of the two nested for_each loops of
construct_namespaces: one (module_path, symbol) event per modules entry of each
resolved symbol, in loop order. -/
def constructionEvents (res : SymbolResolution) : List (String × Symbol) :=
  res.symbols.flatMap (fun rs => rs.modules.map (fun p => (p, rs.symbol)))

/-- The invariant tying the namespace accumulator of construct_namespaces to the
events already processed: namespace names are unique, a name is present exactly
when some processed event references it, each namespace carries exactly the
symbols of its events in order, and its doc comment came from the doc map. -/
def Agrees (crate : String) (dc : List (String × String))
    (evs : List (String × Symbol)) (acc : List Namespace) : Prop :=
  (acc.map Namespace.name).Nodup ∧
  (∀ N, N ∈ acc.map Namespace.name ↔ ∃ e ∈ evs, qualify crate e.1 = N) ∧
  (∀ ns ∈ acc, ns.symbols =
    (evs.filter (fun e => qualify crate e.1 == ns.name)).map Prod.snd) ∧
  (∀ ns ∈ acc, ns.missing_symbols = [] ∧
    ∃ p, qualify crate p = ns.name ∧ ns.doc_comment = List.lookup p dc)


/-! ## Formatter (formatting.rs) -/

/-- Rust str::trim as called by format_library_context on the root documentation
(an external std function): remove leading and trailing whitespace. Defined by
structural recursion on the character list so it evaluates inside proofs. -/
def trimString (s : String) : String :=
  ⟨((s.data.dropWhile Char.isWhitespace).reverse.dropWhile Char.isWhitespace).reverse⟩

/-- The namespace loop of format_library_context: render each namespace element
in order, aborting at the first namespace whose pluggable formatter fails. -/
def build_api_content (f : Namespace → Except LaibraryError String) :
    List Namespace → Except LaibraryError String
  | [] => .ok ""
  | ns :: rest =>
    match f ns with
    | .error e => .error e
    | .ok body =>
      match build_api_content f rest with
      | .error e => .error e
      | .ok tail =>
        .ok ("        <namespace name=\"" ++ ns.name ++ "\">\n" ++ body ++
             "\n        </namespace>\n" ++ tail)

/-- format_library_context (formatting.rs): wrap the trimmed root documentation
and the rendered namespaces in the library template. The analyser argument is
represented by its format_namespace capability, the only part this function uses. -/
def format_library_context (metadata : PackageMetadata) (namespaces : List Namespace)
    (f : Namespace → Except LaibraryError String) : Except LaibraryError String :=
  match build_api_content f namespaces with
  | .error e => .error e
  | .ok api_content =>
    .ok ("<library name=\"" ++ metadata.name ++ "\" version=\"" ++ metadata.version ++
         "\">\n    <documentation>\n" ++ trimString metadata.documentation ++
         "\n    </documentation>\n    <api>\n" ++ api_content ++ "\n    </api>\n</library>")

/-- Restatement of the spec's api section (§4.4 and §6): one namespace element per
(name, body) pair, in the order given. -/
def apiConcat : List (String × String) → String
  | [] => ""
  | nb :: rest =>
    "        <namespace name=\"" ++ nb.1 ++ "\">\n" ++ nb.2 ++
    "\n        </namespace>\n" ++ apiConcat rest

/-- Restatement of the spec's output template (§4.4 and §6): the api section inside
the library wrapper with the trimmed root documentation. Used to compare
format_library_context against the spec's wording. -/
def spec_render (metadata : PackageMetadata) (l : List (String × String)) : String :=
  "<library name=\"" ++ metadata.name ++ "\" version=\"" ++ metadata.version ++
  "\">\n    <documentation>\n" ++ trimString metadata.documentation ++
  "\n    </documentation>\n    <api>\n" ++ apiConcat l ++
  "\n    </api>\n</library>"

/-! ## Pipeline entry point (lib.rs) -/

/-- The per-language analyser capability (analysers.rs trait, spec §9), with the
file-system independent pieces kept abstract: package metadata loading, public
API extraction and per-namespace formatting are opaque fallible functions. -/
structure Analyser where
  get_file_extensions : List String
  get_parser_language : String
  get_package_metadata : String → Except LaibraryError PackageMetadata
  extract_public_api : List String → String → Except LaibraryError (List Namespace)
  format_namespace : Namespace → Except LaibraryError String

/-- Modelled from the spec: the file-listing and parser-construction collaborators
called by generate_documentation (listing.rs and parsing.rs are not among the
sources; §6 specifies them only at their boundary). mkParser stands for
get_parser; a Unit result stands for a ready parser instance. -/
structure Collaborators where
  get_source_file_paths : String → List String → Except LaibraryError (List String)
  mkParser : String → Except LaibraryError Unit

/-- The observable I/O steps of generate_documentation, in the order lib.rs
performs them, used to state that a failure happens before any file I/O. -/
inductive PipelineEvent where
  | ReadPackageMetadata
  | ListSourceFiles
  | CreateParser
  | ExtractPublicApi
deriving DecidableEq, Repr

/-- Modelled from the spec: get_analyser and the global registry of supported
languages (§9), a mapping from language name to analyser capability
(languages/mod.rs is not among the sources); an unknown language is an
UnsupportedLanguage error. -/
def get_analyser (registry : List (String × Analyser)) (language : String) :
    Except LaibraryError Analyser :=
  match List.lookup language registry with
  | some a => .ok a
  | none => .error (.UnsupportedLanguage language)

/-- generate_documentation (lib.rs): look up the analyser, then in order read the
package metadata, list the source files, build the parser, extract the public
API and render the artifact, stopping at the first failure. The second component
records the I/O steps performed. The final call wires the analyser's
format_namespace capability into format_library_context. -/
def generate_documentation (collab : Collaborators) (registry : List (String × Analyser))
    (language : String) (path : String) :
    Except LaibraryError String × List PipelineEvent :=
  match get_analyser registry language with
  | .error e => (.error e, [])
  | .ok analyser =>
    match analyser.get_package_metadata path with
    | .error e => (.error e, [.ReadPackageMetadata])
    | .ok metadata =>
      match collab.get_source_file_paths path analyser.get_file_extensions with
      | .error e => (.error e, [.ReadPackageMetadata, .ListSourceFiles])
      | .ok file_paths =>
        match collab.mkParser analyser.get_parser_language with
        | .error e => (.error e, [.ReadPackageMetadata, .ListSourceFiles, .CreateParser])
        | .ok _ =>
          match analyser.extract_public_api file_paths metadata.name with
          | .error e =>
            (.error e,
             [.ReadPackageMetadata, .ListSourceFiles, .CreateParser, .ExtractPublicApi])
          | .ok namespaces =>
            (format_library_context metadata namespaces analyser.format_namespace,
             [.ReadPackageMetadata, .ListSourceFiles, .CreateParser, .ExtractPublicApi])

/-! ## Symbol resolution (spec-modelled) -/

/-- Modelled from the spec: a re-export edge of the RawModuleGraph (§3): the
module doing the re-export, the imported path split into target module path and
target item name, and the optional rename. The visibility qualifier is omitted:
the Collector records only public edges (§4.1). -/
structure ReExport where
  source_module : String
  target_module : String
  target_name : String
  rename : Option String
deriving DecidableEq, Repr

/-- Modelled from the spec: the RawModuleGraph (§3), the Collector output consumed
by the Resolver (symbol_collection.rs and symbol_resolution.rs are not among the
sources). Declared public items are flattened into (module path, symbol) pairs;
module doc comments are keyed by module path. -/
structure RawModuleGraph where
  decls : List (String × Symbol)
  reexports : List ReExport
  doc_comments : List (String × String)
deriving DecidableEq, Repr

/-- Modelled from the spec: transitively follow a re-export target (§4.2 step 3)
with an explicit visited set (§9) and a hop bound; a revisited target or an
exhausted bound reports the re-export cycle, and a target matching neither a
declaration nor an edge is a resolution failure (§3). On success, returns the
index of the concrete declaration the chain bottoms out at. -/
def chase (g : RawModuleGraph) : Nat → List (String × String) → String → String →
    Except LaibraryError Nat
  | 0, _, m, n => .error (.UnresolvedReExportCycle (m ++ "::" ++ n))
  | fuel + 1, visited, m, n =>
    if (m, n) ∈ visited then .error (.UnresolvedReExportCycle (m ++ "::" ++ n))
    else
      match g.decls.findIdx? (fun d => d.1 == m && d.2.name == n) with
      | some i => .ok i
      | none =>
        match g.reexports.find?
            (fun e => e.source_module == m && (e.rename.getD e.target_name) == n) with
        | some e => chase g fuel ((m, n) :: visited) e.target_module e.target_name
        | none => .error (.Parse ("unresolved import " ++ m ++ "::" ++ n))

/-- A re-export target that bottoms out at a concrete declaration: either the
target module declares the item, or the matching re-export edge leads to a
target that bottoms out. Its negation says the chain never reaches a concrete
item declaration (a dangling import or a re-export cycle). -/
inductive Grounded (g : RawModuleGraph) : String → String → Prop where
  | decl (m n : String) (i : Nat)
      (h : g.decls.findIdx? (fun d => d.1 == m && d.2.name == n) = some i) :
      Grounded g m n
  | step (m n : String) (e : ReExport)
      (hd : g.decls.findIdx? (fun d => d.1 == m && d.2.name == n) = none)
      (he : g.reexports.find?
        (fun e' => e'.source_module == m && (e'.rename.getD e'.target_name) == n) = some e)
      (ht : Grounded g e.target_module e.target_name) :
      Grounded g m n

/-- Record that a symbol is also reachable from the module path p (set-style
append used when a re-export attaches a new module path to a resolved symbol). -/
def attachModule (p : String) (rs : ResolvedSymbol) : ResolvedSymbol :=
  if p ∈ rs.modules then rs else { rs with modules := rs.modules ++ [p] }

/-- Apply a function to the element at the given index, if any. -/
def modifyAt {α : Type} (f : α → α) : Nat → List α → List α
  | _, [] => []
  | 0, a :: l => f a :: l
  | n + 1, a :: l => a :: modifyAt f n l

/-- Modelled from the spec: process one re-export edge (§4.2 step 3): resolve its
target to a declared item; an unchanged name attaches the re-exporting module
path to that item's resolved entry, while a rename appends a distinct visible
symbol with the same source text (§4.2 edge cases). -/
def applyEdge (g : RawModuleGraph) (acc : List ResolvedSymbol) (e : ReExport) :
    Except LaibraryError (List ResolvedSymbol) :=
  match chase g (g.reexports.length + 1) [] e.target_module e.target_name with
  | .error err => .error err
  | .ok i =>
    match g.decls.get? i with
    | none => .error (.Parse "resolver invariant failure")
    | some d =>
      if e.rename.getD d.2.name = d.2.name then
        .ok (modifyAt (attachModule e.source_module) i acc)
      else
        .ok (acc ++ [{ symbol := { name := e.rename.getD d.2.name,
                                   source_code := d.2.source_code },
                       modules := [e.source_module] }])

/-- Process the re-export edges in order, stopping at the first failure (the
Rust ? operator inside the resolver loop). -/
def applyEdges (g : RawModuleGraph) :
    List ReExport → List ResolvedSymbol → Except LaibraryError (List ResolvedSymbol)
  | [], acc => .ok acc
  | e :: rest, acc =>
    match applyEdge g acc e with
    | .error err => .error err
    | .ok acc' => applyEdges g rest acc'

/-- Modelled from the spec: the Symbol Resolver (§4.2): seed every declared public
item with its own module path, process the re-export edges transitively, and
pass the module doc comments through. -/
def resolve_symbols (g : RawModuleGraph) : Except LaibraryError SymbolResolution :=
  match applyEdges g g.reexports
      (g.decls.map (fun d => ({ symbol := d.2, modules := [d.1] } : ResolvedSymbol))) with
  | .error e => .error e
  | .ok syms => .ok { symbols := syms, doc_comments := g.doc_comments }

/-- The post-collection stages of build_public_api (languages/rust/api.rs):
resolve the raw module graph, then construct the namespaces; the constructed
list is any permutation of the namespace map (ConstructOutput). -/
def BuildOutput (g : RawModuleGraph) (crate_name : String)
    (out : List Namespace) : Prop :=
  ∃ res, resolve_symbols g = .ok res ∧ ConstructOutput res crate_name out

/-! ## Concrete inputs used by witnesses and counterexamples -/

/-- The process function symbol of the end-to-end scenario (spec §8 test 6,
api.rs test_integration). -/
def processSym : Symbol :=
  { name := "process",
    source_code := "pub fn process(format: Format) -> String \x7b\n    \"processed\".to_string()\n\x7d" }

/-- The Format enum symbol of the end-to-end scenario. -/
def formatSym : Symbol :=
  { name := "Format", source_code := "pub enum Format \x7b\n    Text,\n    Binary,\n\x7d" }

/-- The raw module graph of the end-to-end scenario: the crate root declares
process and re-exports module::Format, the module declares Format. -/
def scenarioGraph : RawModuleGraph :=
  { decls := [("", processSym), ("module", formatSym)],
    reexports := [{ source_module := "", target_module := "module",
                    target_name := "Format", rename := none }],
    doc_comments := [] }

/-- The symbol resolution of the end-to-end scenario. -/
def scenarioResolution : SymbolResolution :=
  { symbols := [{ symbol := processSym, modules := [""] },
                { symbol := formatSym, modules := ["module", ""] }],
    doc_comments := [] }

/-- A raw module graph whose only content is a two-edge re-export cycle with no
grounding declaration: a re-exports b::f and b re-exports a::f. -/
def cycleGraph : RawModuleGraph :=
  { decls := [],
    reexports := [{ source_module := "a", target_module := "b",
                    target_name := "f", rename := none },
                  { source_module := "b", target_module := "a",
                    target_name := "f", rename := none }],
    doc_comments := [] }

/-- A two-symbol resolution producing two namespaces, used to exhibit the order
nondeterminism of HashMap::into_values. -/
def twoNsResolution : SymbolResolution :=
  { symbols := [{ symbol := { name := "a", source_code := "pub fn a() \x7b\x7d" },
                  modules := [""] },
                { symbol := { name := "b", source_code := "pub fn b() \x7b\x7d" },
                  modules := ["m"] }],
    doc_comments := [] }

/-- A one-symbol resolution with a doc-commented module, used by witnesses. -/
def docResolution : SymbolResolution :=
  { symbols := [{ symbol := { name := "f", source_code := "pub fn f() \x7b\x7d" },
                  modules := ["", "m"] }],
    doc_comments := [("m", "module docs")] }

/-- Metadata whose documentation field contains the namespace delimiter, showing
that unsanitized metadata can inject a namespace tag into the artifact. -/
def injectionMetadata : PackageMetadata :=
  { name := "n", version := "v", documentation := "<namespace" }

/-- Plain metadata used by witnesses. -/
def plainMetadata : PackageMetadata :=
  { name := "test-lib", version := "0.1.0", documentation := "  A test library.\n" }

/-- A namespace value used by witnesses. -/
def witnessNs : Namespace :=
  { name := "test-lib", symbols := [{ name := "f", source_code := "pub fn f() \x7b\x7d" }],
    missing_symbols := [], doc_comment := none }

/-- A per-namespace formatter that always succeeds, used by witnesses. -/
def okFormatter : Namespace → Except LaibraryError String :=
  fun ns => .ok (String.intercalate "\n\n" (ns.symbols.map Symbol.source_code))

/-- A per-namespace formatter that always fails, used by witnesses. -/
def errFormatter : Namespace → Except LaibraryError String :=
  fun _ => .error (.Formatting "invalid namespace state")

/-! ## Helper lemmas -/

theorem append_append_ne (c s p : String) (hs : s ≠ "") : c ≠ c ++ s ++ p := by
  intro he
  have hl := congrArg String.length he
  rw [String.length_append, String.length_append] at hl
  have h0 : 0 < s.length := by
    cases hd : s.data with
    | nil => exact absurd (congrArg String.mk hd) hs
    | cons a l => simp [String.length, hd]
  omega

theorem qualify_ne_of_ne_empty (c p : String) (hp : p ≠ "") : c ≠ qualify c p := by
  rw [qualify, if_neg hp]
  exact append_append_ne c "::" p (by intro h; cases congrArg String.data h)

theorem string_append_cancel_left {c s t : String} (h : c ++ s = c ++ t) : s = t := by
  have hd := congrArg String.data h
  rw [String.data_append, String.data_append] at hd
  cases s; cases t
  exact congrArg String.mk (List.append_cancel_left hd)

theorem qualify_inj {c p₁ p₂ : String} (h : qualify c p₁ = qualify c p₂) : p₁ = p₂ := by
  simp only [qualify] at h
  by_cases h1 : p₁ = ""
  · by_cases h2 : p₂ = ""
    · rw [h1, h2]
    · rw [if_pos h1, if_neg h2] at h
      exact absurd h (append_append_ne c "::" p₂ (by intro hx; cases congrArg String.data hx))
  · by_cases h2 : p₂ = ""
    · rw [if_neg h1, if_pos h2] at h
      exact absurd h.symm
        (append_append_ne c "::" p₁ (by intro hx; cases congrArg String.data hx))
    · rw [if_neg h1, if_neg h2, String.append_assoc, String.append_assoc] at h
      exact string_append_cancel_left (string_append_cancel_left h)

theorem construct_namespaces_eq_foldl (dc : List (String × String)) (crate : String) :
    ∀ (syms : List ResolvedSymbol) (acc : List Namespace),
      syms.foldl (fun acc rs => rs.modules.foldl (insertSymbol dc crate rs.symbol) acc) acc
        = (syms.flatMap (fun rs => rs.modules.map (fun p => (p, rs.symbol)))).foldl
            (fun acc e => insertSymbol dc crate e.2 acc e.1) acc := by
  intro syms
  induction syms with
  | nil => intro acc; rfl
  | cons rs syms ih =>
    intro acc
    rw [List.foldl_cons, ih, List.flatMap_cons, List.foldl_append, List.foldl_map]

theorem pushSymbol_map_name (nm : String) (s : Symbol) :
    ∀ acc : List Namespace, (pushSymbol nm s acc).map Namespace.name = acc.map Namespace.name := by
  intro acc
  induction acc with
  | nil => rfl
  | cons ns rest ih =>
    by_cases h : ns.name = nm
    · simp [pushSymbol, h]
    · simp [pushSymbol, h, ih]

theorem mem_pushSymbol {nm : String} {s : Symbol} :
    ∀ {acc : List Namespace}, (acc.map Namespace.name).Nodup →
      ∀ {ns' : Namespace}, ns' ∈ pushSymbol nm s acc →
        (ns'.name ≠ nm ∧ ns' ∈ acc) ∨
        (∃ ns, ns ∈ acc ∧ ns.name = nm ∧ ns' = { ns with symbols := ns.symbols ++ [s] }) := by
  intro acc
  induction acc with
  | nil => intro _ ns' h; simp [pushSymbol] at h
  | cons ns rest ih =>
    intro hnd ns' h
    have hnd' : (rest.map Namespace.name).Nodup := by
      rw [List.map_cons] at hnd
      exact (List.nodup_cons.mp hnd).2
    have hnm : ns.name ∉ rest.map Namespace.name := by
      rw [List.map_cons] at hnd
      exact (List.nodup_cons.mp hnd).1
    by_cases hn : ns.name = nm
    · rw [pushSymbol, if_pos hn] at h
      rcases List.mem_cons.mp h with rfl | hmem
      · exact Or.inr ⟨ns, List.mem_cons_self ns rest, hn, rfl⟩
      · refine Or.inl ⟨?_, List.mem_cons_of_mem _ hmem⟩
        intro he
        exact hnm (by rw [hn, ← he]; exact List.mem_map_of_mem _ hmem)
    · rw [pushSymbol, if_neg hn] at h
      rcases List.mem_cons.mp h with rfl | hmem
      · exact Or.inl ⟨hn, List.mem_cons_self ns' rest⟩
      · rcases ih hnd' hmem with ⟨h1, h2⟩ | ⟨nsx, hx, hxn, hxe⟩
        · exact Or.inl ⟨h1, List.mem_cons_of_mem _ h2⟩
        · exact Or.inr ⟨nsx, List.mem_cons_of_mem _ hx, hxn, hxe⟩

theorem agrees_insert (crate : String) (dc : List (String × String))
    (done : List (String × Symbol)) (acc : List Namespace) (e : String × Symbol)
    (h : Agrees crate dc done acc) :
    Agrees crate dc (done ++ [e]) (insertSymbol dc crate e.2 acc e.1) := by
  obtain ⟨hnd, hmem, hsym, hdoc⟩ := h
  by_cases hin : qualify crate e.1 ∈ acc.map Namespace.name
  · rw [insertSymbol, if_pos hin]
    refine ⟨?_, ?_, ?_, ?_⟩
    · rw [pushSymbol_map_name]; exact hnd
    · intro N
      rw [pushSymbol_map_name]
      constructor
      · intro hN
        rcases (hmem N).mp hN with ⟨e', he', hq⟩
        exact ⟨e', List.mem_append_left _ he', hq⟩
      · rintro ⟨e', he', hq⟩
        rcases List.mem_append.mp he' with hd' | hs'
        · exact (hmem N).mpr ⟨e', hd', hq⟩
        · rw [List.mem_singleton] at hs'
          subst hs'
          rw [← hq]
          exact hin
    · intro ns' hns'
      rcases mem_pushSymbol hnd hns' with ⟨hne, hmem'⟩ | ⟨ns, hns, hname, rfl⟩
      · rw [hsym ns' hmem', List.filter_append]
        have hz : List.filter (fun e' => qualify crate e'.1 == ns'.name) [e] = [] := by
          simp only [List.filter_cons, List.filter_nil]
          rw [if_neg]
          intro hx
          exact hne (beq_iff_eq.mp hx).symm
        rw [hz, List.append_nil]
      · have hname' : ({ ns with symbols := ns.symbols ++ [e.2] } : Namespace).name
            = qualify crate e.1 := hname
        have hsyms : ({ ns with symbols := ns.symbols ++ [e.2] } : Namespace).symbols
            = ns.symbols ++ [e.2] := rfl
        rw [hsyms, hname', List.filter_append]
        have hone : List.filter (fun e' => qualify crate e'.1 == qualify crate e.1) [e]
            = [e] := by simp
        rw [hone, List.map_append, ← hname, ← hsym ns hns]
        rfl
    · intro ns' hns'
      rcases mem_pushSymbol hnd hns' with ⟨_, hmem'⟩ | ⟨ns, hns, _, rfl⟩
      · exact hdoc ns' hmem'
      · obtain ⟨hm, p, hp, hd⟩ := hdoc ns hns
        exact ⟨hm, p, hp, hd⟩
  · rw [insertSymbol, if_neg hin]
    have hnotin : ∀ e' ∈ done, qualify crate e'.1 ≠ qualify crate e.1 := by
      intro e' he' hq
      exact hin ((hmem _).mpr ⟨e', he', hq⟩)
    refine ⟨?_, ?_, ?_, ?_⟩
    · rw [List.map_append]
      simp only [List.map_cons, List.map_nil]
      rw [List.nodup_append]
      refine ⟨hnd, List.nodup_singleton _, ?_⟩
      intro a ha hb
      rw [List.mem_singleton] at hb
      exact hin (hb ▸ ha)
    · intro N
      rw [List.map_append]
      constructor
      · intro hN
        rcases List.mem_append.mp hN with h1 | h2
        · rcases (hmem N).mp h1 with ⟨e', he', hq⟩
          exact ⟨e', List.mem_append_left _ he', hq⟩
        · simp only [List.map_cons, List.map_nil, List.mem_singleton] at h2
          exact ⟨e, List.mem_append_right _ (List.mem_singleton_self e), h2.symm⟩
      · rintro ⟨e', he', hq⟩
        rcases List.mem_append.mp he' with hd' | hs'
        · exact List.mem_append_left _ ((hmem N).mpr ⟨e', hd', hq⟩)
        · rw [List.mem_singleton] at hs'
          subst hs'
          apply List.mem_append_right
          simp [← hq]
    · intro ns' hns'
      rcases List.mem_append.mp hns' with hmem' | hnew
      · have hne : ns'.name ≠ qualify crate e.1 := by
          intro he'
          exact hin (he' ▸ List.mem_map_of_mem _ hmem')
        rw [hsym ns' hmem', List.filter_append]
        have hz : List.filter (fun e' => qualify crate e'.1 == ns'.name) [e] = [] := by
          simp only [List.filter_cons, List.filter_nil]
          rw [if_neg]
          intro hx
          exact hne (beq_iff_eq.mp hx).symm
        rw [hz, List.append_nil]
      · rw [List.mem_singleton] at hnew
        subst hnew
        simp only [List.filter_append]
        have h1 : done.filter (fun e' => qualify crate e'.1 == qualify crate e.1) = [] := by
          apply List.filter_eq_nil_iff.mpr
          intro a ha hx
          exact hnotin a ha (beq_iff_eq.mp hx)
        have h2 : List.filter (fun e' => qualify crate e'.1 == qualify crate e.1) [e]
            = [e] := by simp
        rw [h1, h2]
        rfl
    · intro ns' hns'
      rcases List.mem_append.mp hns' with hmem' | hnew
      · exact hdoc ns' hmem'
      · rw [List.mem_singleton] at hnew
        subst hnew
        exact ⟨rfl, e.1, rfl, rfl⟩

theorem agrees_foldl (crate : String) (dc : List (String × String)) :
    ∀ (evs done : List (String × Symbol)) (acc : List Namespace),
      Agrees crate dc done acc →
      Agrees crate dc (done ++ evs)
        (evs.foldl (fun acc e => insertSymbol dc crate e.2 acc e.1) acc) := by
  intro evs
  induction evs with
  | nil => intro done acc h; rw [List.append_nil]; exact h
  | cons e evs ih =>
    intro done acc h
    rw [List.foldl_cons]
    have h' := ih (done ++ [e]) _ (agrees_insert crate dc done acc e h)
    rw [List.append_assoc] at h'
    exact h'

theorem agrees_nil (crate : String) (dc : List (String × String)) :
    Agrees crate dc [] [] := by
  refine ⟨List.nodup_nil, ?_, ?_, ?_⟩
  · intro N; simp
  · intro ns h; simp at h
  · intro ns h; simp at h

/-- Master characterization: the insertion-ordered namespace map built by
construct_namespaces satisfies the Agrees invariant over all loop events. -/
theorem construct_namespaces_agrees (res : SymbolResolution) (crate : String) :
    Agrees crate res.doc_comments (constructionEvents res) (construct_namespaces res crate) := by
  rw [construct_namespaces, construct_namespaces_eq_foldl]
  have h := agrees_foldl crate res.doc_comments (constructionEvents res) [] []
    (agrees_nil crate res.doc_comments)
  rw [List.nil_append] at h
  exact h

/-- The Agrees invariant is stable under permutation of the namespace list, which
is how HashMap::into_values may reorder it. -/
theorem agrees_perm {crate : String} {dc : List (String × String)}
    {evs : List (String × Symbol)} {l₁ l₂ : List Namespace}
    (h : Agrees crate dc evs l₁) (hp : l₁.Perm l₂) : Agrees crate dc evs l₂ := by
  obtain ⟨hnd, hmem, hsym, hdoc⟩ := h
  refine ⟨(hp.map Namespace.name).nodup_iff.mp hnd, ?_, ?_, ?_⟩
  · intro N
    rw [← (hp.map Namespace.name).mem_iff]
    exact hmem N
  · intro ns hns
    exact hsym ns (hp.mem_iff.mpr hns)
  · intro ns hns
    exact hdoc ns (hp.mem_iff.mpr hns)


theorem pair_mem_constructionEvents {res : SymbolResolution} {p : String} {s : Symbol} :
    (p, s) ∈ constructionEvents res ↔
      ∃ rs ∈ res.symbols, p ∈ rs.modules ∧ rs.symbol = s := by
  rw [constructionEvents, List.mem_flatMap]
  constructor
  · rintro ⟨rs, hrs, hm⟩
    rw [List.mem_map] at hm
    obtain ⟨p', hp', he⟩ := hm
    have h1 : p' = p := congrArg Prod.fst he
    have h2 : rs.symbol = s := congrArg Prod.snd he
    subst h1
    exact ⟨rs, hrs, hp', h2⟩
  · rintro ⟨rs, hrs, hp, hs⟩
    exact ⟨rs, hrs, List.mem_map.mpr ⟨p, hp, by rw [hs]⟩⟩

theorem construct_output_agrees {res : SymbolResolution} {crate : String}
    {out : List Namespace} (hout : ConstructOutput res crate out) :
    Agrees crate res.doc_comments (constructionEvents res) out :=
  agrees_perm (construct_namespaces_agrees res crate) hout

theorem prefix_before_sep {α : Type} :
    ∀ {pat xs : List α} {c : α} {ys : List α}, c ∉ pat → pat <+: xs ++ c :: ys →
      pat <+: xs := by
  intro pat
  induction pat with
  | nil => intro xs c ys _ _; exact List.nil_prefix
  | cons p pt ih =>
    intro xs c ys hc h
    cases xs with
    | nil =>
      rw [List.nil_append] at h
      obtain ⟨rfl, -⟩ := List.cons_prefix_cons.mp h
      exact absurd (List.mem_cons_self _ _) hc
    | cons x xt =>
      rw [List.cons_append] at h
      obtain ⟨rfl, h'⟩ := List.cons_prefix_cons.mp h
      have hc' : c ∉ pt := fun hm => hc (List.mem_cons_of_mem _ hm)
      exact List.cons_prefix_cons.mpr ⟨rfl, ih hc' h'⟩

theorem sub_split_at_sep {α : Type} :
    ∀ {xs pat ys : List α} {c : α}, c ∉ pat → pat <:+: xs ++ c :: ys →
      pat <:+: xs ∨ pat <:+: ys := by
  intro xs
  induction xs with
  | nil =>
    intro pat ys c hc h
    rw [List.nil_append] at h
    rcases List.infix_cons_iff.mp h with hpre | hsub
    · cases pat with
      | nil => exact Or.inl List.nil_infix
      | cons p pt =>
        obtain ⟨rfl, -⟩ := List.cons_prefix_cons.mp hpre
        exact absurd (List.mem_cons_self _ _) hc
    · exact Or.inr hsub
  | cons x xt ih =>
    intro pat ys c hc h
    rw [List.cons_append] at h
    rcases List.infix_cons_iff.mp h with hpre | hsub
    · exact Or.inl ((prefix_before_sep hc hpre).isInfix)
    · rcases ih hc hsub with h1 | h2
      · exact Or.inl (List.infix_cons h1)
      · exact Or.inr h2

theorem noSub_across_sep {α : Type} {pat xs ys : List α} {c : α}
    (hc : c ∉ pat) (h1 : ¬ pat <:+: xs) (h2 : ¬ pat <:+: ys) :
    ¬ pat <:+: xs ++ c :: ys :=
  fun h => (sub_split_at_sep hc h).elim h1 h2

theorem build_api_content_ok (f : Namespace → Except LaibraryError String)
    (b : Namespace → String) :
    ∀ nss : List Namespace, (∀ ns ∈ nss, f ns = .ok (b ns)) →
      build_api_content f nss = .ok (apiConcat (nss.map (fun ns => (ns.name, b ns)))) := by
  intro nss
  induction nss with
  | nil => intro _; rfl
  | cons ns rest ih =>
    intro h
    have hns := h ns (List.mem_cons_self _ _)
    have hrest := ih (fun x hx => h x (List.mem_cons_of_mem _ hx))
    simp only [build_api_content]
    rw [hns, hrest]
    simp [apiConcat]

theorem format_error_iff (md : PackageMetadata) (nss : List Namespace)
    (f : Namespace → Except LaibraryError String) (e : LaibraryError) :
    format_library_context md nss f = .error e ↔ build_api_content f nss = .error e := by
  rw [format_library_context]
  cases h : build_api_content f nss <;> simp

theorem chase_error_of_not_grounded :
    ∀ (fuel : Nat) (g : RawModuleGraph) (m n : String) (visited : List (String × String)),
      ¬ Grounded g m n → ∃ err, chase g fuel visited m n = .error err := by
  intro fuel
  induction fuel with
  | zero => intro g m n visited _; exact ⟨_, rfl⟩
  | succ fuel ih =>
    intro g m n visited hg
    by_cases hv : (m, n) ∈ visited
    · exact ⟨_, by rw [chase, if_pos hv]⟩
    · cases hfi : g.decls.findIdx? (fun d => d.1 == m && d.2.name == n) with
      | some i => exact absurd (Grounded.decl m n i hfi) hg
      | none =>
        cases hfe : g.reexports.find?
            (fun e => e.source_module == m && (e.rename.getD e.target_name) == n) with
        | none => exact ⟨_, by rw [chase, if_neg hv, hfi, hfe]⟩
        | some e =>
          have hg' : ¬ Grounded g e.target_module e.target_name :=
            fun ht => hg (Grounded.step m n e hfi hfe ht)
          obtain ⟨err, herr⟩ := ih g e.target_module e.target_name ((m, n) :: visited) hg'
          exact ⟨err, by rw [chase, if_neg hv, hfi, hfe]; exact herr⟩

theorem applyEdge_error_of_chase_error {g : RawModuleGraph} {e : ReExport}
    {err : LaibraryError}
    (h : chase g (g.reexports.length + 1) [] e.target_module e.target_name = .error err)
    (acc : List ResolvedSymbol) : applyEdge g acc e = .error err := by
  rw [applyEdge, h]

theorem applyEdges_error (g : RawModuleGraph) :
    ∀ (l : List ReExport) (acc : List ResolvedSymbol),
      (∃ e ∈ l, ∃ err,
        chase g (g.reexports.length + 1) [] e.target_module e.target_name = .error err) →
      ∃ err, applyEdges g l acc = .error err := by
  intro l
  induction l with
  | nil =>
    rintro acc ⟨e, he, -⟩
    simp at he
  | cons a l ih =>
    rintro acc ⟨e, he, err, herr⟩
    cases hae : applyEdge g acc a with
    | error err' => exact ⟨err', by rw [applyEdges, hae]⟩
    | ok acc' =>
      rcases List.mem_cons.mp he with rfl | he'
      · rw [applyEdge_error_of_chase_error herr acc] at hae
        cases hae
      · obtain ⟨err', h'⟩ := ih acc' ⟨e, he', err, herr⟩
        exact ⟨err', by rw [applyEdges, hae]; exact h'⟩

theorem not_grounded_of_no_decls (g : RawModuleGraph) (hd : g.decls = []) :
    ∀ m n, ¬ Grounded g m n := by
  intro m n h
  induction h with
  | decl m n i hi =>
    rw [hd] at hi
    simp [List.findIdx?_nil] at hi
  | step m n e hd' he ht ih => exact ih

theorem sublist_pair_of_mem_middle {α : Type} {x y : α} {A B C D E : List α}
    (hx : x ∈ B) (hy : y ∈ D) :
    List.Sublist [x, y] (A ++ (B ++ (C ++ (D ++ E)))) := by
  have t1 := List.singleton_sublist.mpr hx
  have t2 := List.singleton_sublist.mpr hy
  have t3 : List.Sublist [y] (C ++ (D ++ E)) :=
    t2.trans ((List.sublist_append_left D E).trans (List.sublist_append_right C _))
  have t4 : List.Sublist ([x] ++ [y]) (B ++ (C ++ (D ++ E))) := t1.append t3
  exact t4.trans (List.sublist_append_right A _)

theorem string_data_inj {s t : String} (h : s.data = t.data) : s = t := by
  cases s; cases t; exact congrArg String.mk h

theorem append_ne_self (c s : String) (hs : s ≠ "") : c ≠ c ++ s := by
  intro he
  have hl := congrArg String.length he
  rw [String.length_append] at hl
  have h0 : 0 < s.length := by
    cases hd : s.data with
    | nil => exact absurd (congrArg String.mk hd) hs
    | cons a l => simp [String.length, hd]
  omega

/-- Evaluation of construct_namespaces on the end-to-end scenario resolution,
with the crate name kept symbolic. -/
theorem construct_scenario (crate : String) :
    construct_namespaces scenarioResolution crate =
      [{ name := crate, symbols := [processSym, formatSym], missing_symbols := [],
         doc_comment := none },
       { name := crate ++ "::module", symbols := [formatSym], missing_symbols := [],
         doc_comment := none }] := by
  have hC : crate ++ "::" ++ "module" = crate ++ "::module" := by
    rw [String.append_assoc]
    exact congrArg (fun x => crate ++ x) rfl
  have hA : (crate ++ "::module" = crate) = False :=
    eq_false (fun h => append_ne_self crate "::module" (by decide) h.symm)
  have hB : (crate = crate ++ "::module") = False :=
    eq_false (append_ne_self crate "::module" (by decide))
  simp [construct_namespaces, scenarioResolution, insertSymbol, pushSymbol, qualify,
        hC, hA, hB]

/-- The artifact for an empty namespace list, in closed form: the library wrapper
and documentation section populated from the metadata, with an empty api body. -/
theorem spec_render_nil_eq (md : PackageMetadata) :
    spec_render md [] =
      "<library name=\"" ++ md.name ++ "\" version=\"" ++ md.version ++
      "\">\n    <documentation>\n" ++ trimString md.documentation ++
      "\n    </documentation>\n    <api>\n\n    </api>\n</library>" := by
  apply string_data_inj
  simp only [spec_render, apiConcat, String.data_append]
  simp [List.append_assoc]

/-- If none of the three metadata-derived fields contains the namespace element
delimiter, the empty-list artifact contains no namespace element delimiter. -/
theorem spec_render_nil_no_namespace_tag (md : PackageMetadata)
    (hn : ¬ ("<namespace" : String).data <:+: md.name.data)
    (hv : ¬ ("<namespace" : String).data <:+: md.version.data)
    (hd : ¬ ("<namespace" : String).data <:+: (trimString md.documentation).data) :
    ¬ ("<namespace" : String).data <:+: (spec_render md []).data := by
  have hsplit : (spec_render md []).data =
      ("<library name=" : String).data ++ '"' :: (md.name.data ++ '"' ::
        ((" version=" : String).data ++ '"' :: (md.version.data ++ '"' ::
          ((">\n    <documentation>" : String).data ++ '\n' ::
            ((trimString md.documentation).data ++ '\n' ::
              ("    </documentation>\n    <api>\n\n    </api>\n</library>" :
                String).data))))) := by
    rw [spec_render_nil_eq]
    simp only [String.data_append]
    simp [List.append_assoc, List.cons_append]
  rw [hsplit]
  have hq : ('"' : Char) ∉ ("<namespace" : String).data := by decide
  have hnl : ('\n' : Char) ∉ ("<namespace" : String).data := by decide
  exact noSub_across_sep hq (by decide)
    (noSub_across_sep hq hn
      (noSub_across_sep hq (by decide)
        (noSub_across_sep hq hv
          (noSub_across_sep hnl (by decide)
            (noSub_across_sep hnl hd (by decide))))))

/-! ## Claim theorems -/

/-- C2: for every SymbolResolution and crate_name, construct_namespaces produces,
for each ResolvedSymbol and each module path in its modules list, a namespace
named crate_name when the path is empty and crate_name::path otherwise, carrying
the doc comment looked up from the resolution's doc_comments map and containing
that ResolvedSymbol's symbol; and no namespace other than these is produced. -/
theorem c2_construct_characterization (res : SymbolResolution) (crate : String)
    (out : List Namespace) (hout : ConstructOutput res crate out) :
    (∀ rs ∈ res.symbols, ∀ p ∈ rs.modules,
      ∃ ns ∈ out, ns.name = qualify crate p ∧ rs.symbol ∈ ns.symbols ∧
        ns.doc_comment = List.lookup p res.doc_comments) ∧
    (∀ ns ∈ out, ∃ rs ∈ res.symbols, ∃ p ∈ rs.modules, ns.name = qualify crate p) := by
  obtain ⟨hnd, hmem, hsym, hdoc⟩ := construct_output_agrees hout
  constructor
  · intro rs hrs p hp
    have hev : (p, rs.symbol) ∈ constructionEvents res :=
      pair_mem_constructionEvents.mpr ⟨rs, hrs, hp, rfl⟩
    have hN : qualify crate p ∈ out.map Namespace.name :=
      (hmem _).mpr ⟨(p, rs.symbol), hev, rfl⟩
    obtain ⟨ns, hns, hnm⟩ := List.mem_map.mp hN
    refine ⟨ns, hns, hnm, ?_, ?_⟩
    · rw [hsym ns hns]
      refine List.mem_map.mpr ⟨(p, rs.symbol), List.mem_filter.mpr ⟨hev, ?_⟩, rfl⟩
      rw [hnm]
      exact beq_self_eq_true _
    · obtain ⟨-, p', hp', hd⟩ := hdoc ns hns
      have hpp : p' = p := qualify_inj (by rw [hp', hnm])
      rw [hpp] at hd
      exact hd
  · intro ns hns
    obtain ⟨e, hev, hq⟩ := (hmem ns.name).mp (List.mem_map_of_mem _ hns)
    obtain ⟨rs, hrs, hp, -⟩ := pair_mem_constructionEvents.mp hev
    exact ⟨rs, hrs, e.1, hp, hq.symm⟩

/-- Witness for c2_construct_characterization at a one-symbol resolution visible
from the crate root and a doc-commented module. -/
theorem c2_construct_characterization_witness :
    (∀ rs ∈ docResolution.symbols, ∀ p ∈ rs.modules,
      ∃ ns ∈ construct_namespaces docResolution "lib", ns.name = qualify "lib" p ∧
        rs.symbol ∈ ns.symbols ∧
        ns.doc_comment = List.lookup p docResolution.doc_comments) ∧
    (∀ ns ∈ construct_namespaces docResolution "lib",
      ∃ rs ∈ docResolution.symbols, ∃ p ∈ rs.modules, ns.name = qualify "lib" p) :=
  c2_construct_characterization docResolution "lib" _ (List.Perm.refl _)

/-- C3: in the list returned by construct_namespaces every namespace name occurs
exactly once: the name list has no duplicates, so no two distinct entries have
equal name fields. -/
theorem c3_namespace_names_unique (res : SymbolResolution) (crate : String)
    (out : List Namespace) (hout : ConstructOutput res crate out) :
    (out.map Namespace.name).Nodup ∧
    out.Pairwise (fun ns₁ ns₂ => ns₁.name ≠ ns₂.name) := by
  obtain ⟨hnd, -, -, -⟩ := construct_output_agrees hout
  exact ⟨hnd, List.pairwise_map.mp hnd⟩

/-- Witness for c3_namespace_names_unique at a two-namespace resolution. -/
theorem c3_namespace_names_unique_witness :
    ((construct_namespaces twoNsResolution "c").map Namespace.name).Nodup ∧
    (construct_namespaces twoNsResolution "c").Pairwise
      (fun ns₁ ns₂ => ns₁.name ≠ ns₂.name) :=
  c3_namespace_names_unique twoNsResolution "c" _ (List.Perm.refl _)

/-- C10: every namespace returned by construct_namespaces contains at least one
symbol, and a module path listed by no resolved symbol — even one present in the
doc_comments map — yields no namespace at all, so its doc comment is absent. -/
theorem c10_no_symbolless_namespace (res : SymbolResolution) (crate : String)
    (out : List Namespace) (hout : ConstructOutput res crate out) :
    (∀ ns ∈ out, ns.symbols ≠ []) ∧
    (∀ p, (List.lookup p res.doc_comments).isSome = true →
      (∀ rs ∈ res.symbols, p ∉ rs.modules) →
      ∀ ns ∈ out, ns.name ≠ qualify crate p) := by
  obtain ⟨hnd, hmem, hsym, hdoc⟩ := construct_output_agrees hout
  constructor
  · intro ns hns
    obtain ⟨e, hev, hq⟩ := (hmem ns.name).mp (List.mem_map_of_mem _ hns)
    have hm : e.2 ∈ ns.symbols := by
      rw [hsym ns hns]
      apply List.mem_map_of_mem
      apply List.mem_filter.mpr
      refine ⟨hev, ?_⟩
      rw [hq]
      exact beq_self_eq_true _
    exact List.ne_nil_of_mem hm
  · intro p _ hnot ns hns heq
    obtain ⟨e, hev, hq⟩ := (hmem ns.name).mp (List.mem_map_of_mem _ hns)
    obtain ⟨rs, hrs, hp, -⟩ := pair_mem_constructionEvents.mp hev
    have hpe : e.1 = p := qualify_inj (by rw [hq, heq])
    exact hnot rs hrs (hpe ▸ hp)

/-- A resolution whose doc_comments map mentions a module path that no resolved
symbol lists, used by the c10 witness. -/
def orphanDocResolution : SymbolResolution :=
  { symbols := [{ symbol := { name := "f", source_code := "pub fn f() \x7b\x7d" },
                  modules := [""] }],
    doc_comments := [("orphan", "orphan module docs")] }

/-- Witness for c10_no_symbolless_namespace at a resolution with an orphan doc
comment. -/
theorem c10_no_symbolless_namespace_witness :
    (∀ ns ∈ construct_namespaces orphanDocResolution "lib", ns.symbols ≠ []) ∧
    (∀ p, (List.lookup p orphanDocResolution.doc_comments).isSome = true →
      (∀ rs ∈ orphanDocResolution.symbols, p ∉ rs.modules) →
      ∀ ns ∈ construct_namespaces orphanDocResolution "lib",
        ns.name ≠ qualify "lib" p) :=
  c10_no_symbolless_namespace orphanDocResolution "lib" _ (List.Perm.refl _)

/-- C8: two ResolvedSymbols whose symbols share a name and that both list the
same module path both land in that path's namespace: both symbol occurrences are
kept as a sublist, so nothing is deduplicated or overwritten. -/
theorem c8_duplicate_names_both_kept (crate : String) (dc : List (String × String))
    (u v w : List ResolvedSymbol) (rs₁ rs₂ : ResolvedSymbol) (p : String)
    (out : List Namespace)
    (hout : ConstructOutput
      { symbols := u ++ rs₁ :: v ++ rs₂ :: w, doc_comments := dc } crate out)
    (h1 : p ∈ rs₁.modules) (h2 : p ∈ rs₂.modules)
    (hname : rs₁.symbol.name = rs₂.symbol.name) :
    ∃ ns ∈ out, ns.name = qualify crate p ∧
      List.Sublist [rs₁.symbol, rs₂.symbol] ns.symbols := by
  obtain ⟨hnd, hmem, hsym, hdoc⟩ := construct_output_agrees hout
  have hev : (p, rs₁.symbol) ∈ constructionEvents
      { symbols := u ++ rs₁ :: v ++ rs₂ :: w, doc_comments := dc } := by
    apply pair_mem_constructionEvents.mpr
    refine ⟨rs₁, ?_, h1, rfl⟩
    show rs₁ ∈ u ++ rs₁ :: v ++ rs₂ :: w
    exact List.mem_append_left _ (List.mem_append_right u (List.mem_cons_self _ _))
  have hN : qualify crate p ∈ out.map Namespace.name := (hmem _).mpr ⟨_, hev, rfl⟩
  obtain ⟨ns, hns, hnm⟩ := List.mem_map.mp hN
  refine ⟨ns, hns, hnm, ?_⟩
  rw [hsym ns hns, hnm]
  have hevs : constructionEvents
      { symbols := u ++ rs₁ :: v ++ rs₂ :: w, doc_comments := dc } =
      (u.flatMap fun rs => rs.modules.map (fun q => (q, rs.symbol))) ++
      ((rs₁.modules.map fun q => (q, rs₁.symbol)) ++
      ((v.flatMap fun rs => rs.modules.map (fun q => (q, rs.symbol))) ++
      ((rs₂.modules.map fun q => (q, rs₂.symbol)) ++
      (w.flatMap fun rs => rs.modules.map (fun q => (q, rs.symbol)))))) := by
    simp [constructionEvents, List.flatMap_append, List.flatMap_cons]
  rw [hevs]
  simp only [List.filter_append, List.map_append]
  apply sublist_pair_of_mem_middle
  · exact List.mem_map.mpr ⟨(p, rs₁.symbol),
      List.mem_filter.mpr ⟨List.mem_map.mpr ⟨p, h1, rfl⟩, beq_self_eq_true _⟩, rfl⟩
  · exact List.mem_map.mpr ⟨(p, rs₂.symbol),
      List.mem_filter.mpr ⟨List.mem_map.mpr ⟨p, h2, rfl⟩, beq_self_eq_true _⟩, rfl⟩

/-- A resolved symbol used twice by the c8 witness. -/
def dupResolved : ResolvedSymbol :=
  { symbol := { name := "f", source_code := "pub fn f() \x7b\x7d" }, modules := [""] }

/-- Witness for c8_duplicate_names_both_kept: the same resolved symbol occurring
twice lands twice in the crate root namespace. -/
theorem c8_duplicate_names_both_kept_witness :
    ∃ ns ∈ construct_namespaces
      { symbols := [] ++ dupResolved :: [] ++ dupResolved :: [],
        doc_comments := [] } "c",
      ns.name = qualify "c" "" ∧
      List.Sublist [dupResolved.symbol, dupResolved.symbol] ns.symbols :=
  c8_duplicate_names_both_kept "c" [] [] [] [] dupResolved dupResolved "" _
    (List.Perm.refl _) (by decide) (by decide) rfl

/-- C4 counterexample: the claim that construct_namespaces returns a single
deterministic order is false: for a two-namespace resolution both the insertion
order and its reverse are valid into_values results, and they differ element for
element. -/
theorem c4_counterexample_order :
    ConstructOutput twoNsResolution "c" (construct_namespaces twoNsResolution "c") ∧
    ConstructOutput twoNsResolution "c"
      ((construct_namespaces twoNsResolution "c").reverse) ∧
    (construct_namespaces twoNsResolution "c").reverse ≠
      construct_namespaces twoNsResolution "c" :=
  ⟨List.Perm.refl _, (List.reverse_perm _).symm, by decide⟩

/-- C4 (amended): any two runs of construct_namespaces on the same resolution and
crate name agree up to permutation — the namespace multiset, hence the rendered
content up to namespace order, is deterministic. -/
theorem c4_output_unique_up_to_perm (res : SymbolResolution) (crate : String)
    (out₁ out₂ : List Namespace) (h₁ : ConstructOutput res crate out₁)
    (h₂ : ConstructOutput res crate out₂) : out₁.Perm out₂ :=
  h₁.symm.trans h₂

/-- Witness for c4_output_unique_up_to_perm at the two-namespace resolution. -/
theorem c4_output_unique_up_to_perm_witness :
    ((construct_namespaces twoNsResolution "c").reverse).Perm
      (construct_namespaces twoNsResolution "c") :=
  c4_output_unique_up_to_perm twoNsResolution "c" _ _
    ((List.reverse_perm _).symm) (List.Perm.refl _)

/-- C6: if the pluggable per-namespace formatter fails on some namespace of the
input, format_library_context returns that namespace's error (the first failing
namespace's error) and produces no artifact text. -/
theorem c6_formatter_error_aborts (md : PackageMetadata) (nss : List Namespace)
    (f : Namespace → Except LaibraryError String)
    (h : ∃ ns ∈ nss, ∃ e, f ns = .error e) :
    ∃ ns ∈ nss, ∃ e, f ns = .error e ∧ format_library_context md nss f = .error e := by
  induction nss with
  | nil =>
    obtain ⟨ns, hns, -⟩ := h
    simp at hns
  | cons a rest ih =>
    cases hfa : f a with
    | error e =>
      refine ⟨a, List.mem_cons_self _ _, e, hfa, ?_⟩
      rw [format_error_iff]
      simp only [build_api_content]
      rw [hfa]
    | ok body =>
      obtain ⟨ns, hns, e, hne⟩ := h
      have hns' : ns ∈ rest := by
        rcases List.mem_cons.mp hns with rfl | h'
        · rw [hfa] at hne; cases hne
        · exact h'
      obtain ⟨ns', hns'', e', he', heq⟩ := ih ⟨ns, hns', e, hne⟩
      refine ⟨ns', List.mem_cons_of_mem _ hns'', e', he', ?_⟩
      rw [format_error_iff] at heq ⊢
      simp only [build_api_content]
      rw [hfa, heq]

/-- Witness for c6_formatter_error_aborts with a formatter that always fails. -/
theorem c6_formatter_error_aborts_witness :
    ∃ ns ∈ [witnessNs], ∃ e, errFormatter ns = .error e ∧
      format_library_context plainMetadata [witnessNs] errFormatter = .error e :=
  c6_formatter_error_aborts plainMetadata [witnessNs] errFormatter
    ⟨witnessNs, List.mem_singleton_self _, .Formatting "invalid namespace state", rfl⟩

/-- C7: a language with no registered analyser makes generate_documentation
return UnsupportedLanguage with an empty I/O trace — no package metadata read,
no source file listing, no parser construction, no extraction. -/
theorem c7_unsupported_language (collab : Collaborators)
    (registry : List (String × Analyser)) (language path : String)
    (hreg : List.lookup language registry = none) :
    generate_documentation collab registry language path =
      (.error (.UnsupportedLanguage language), []) := by
  rw [generate_documentation, get_analyser, hreg]

/-- Stub file-system collaborators used by the c7 witness. -/
def stubCollaborators : Collaborators :=
  { get_source_file_paths := fun _ _ => .ok [], mkParser := fun _ => .ok () }

/-- Witness for c7_unsupported_language at an empty registry. -/
theorem c7_unsupported_language_witness :
    generate_documentation stubCollaborators [] "unsupported" "/pkg" =
      (.error (.UnsupportedLanguage "unsupported"), []) :=
  c7_unsupported_language stubCollaborators [] "unsupported" "/pkg" rfl

/-- C9: a re-export whose chain never bottoms out at a concrete declaration makes
symbol resolution terminate with a resolution error (the chase is bounded by the
edge count plus one hops), and hence no build output exists for such a graph. -/
theorem c9_unresolved_cycle_errors (g : RawModuleGraph) (e : ReExport)
    (he : e ∈ g.reexports) (hg : ¬ Grounded g e.target_module e.target_name) :
    (∃ err, resolve_symbols g = .error err) ∧
    ∀ crate out, ¬ BuildOutput g crate out := by
  obtain ⟨err, herr⟩ := chase_error_of_not_grounded (g.reexports.length + 1) g
    e.target_module e.target_name [] hg
  obtain ⟨err', h'⟩ := applyEdges_error g g.reexports
    (g.decls.map (fun d => ({ symbol := d.2, modules := [d.1] } : ResolvedSymbol)))
    ⟨e, he, err, herr⟩
  refine ⟨⟨err', by rw [resolve_symbols, h']⟩, ?_⟩
  rintro crate out ⟨res, hres, -⟩
  rw [resolve_symbols, h'] at hres
  cases hres

/-- Witness for c9_unresolved_cycle_errors at the two-edge re-export cycle. -/
theorem c9_unresolved_cycle_errors_witness :
    (∃ err, resolve_symbols cycleGraph = .error err) ∧
    ∀ crate out, ¬ BuildOutput cycleGraph crate out :=
  c9_unresolved_cycle_errors cycleGraph
    { source_module := "a", target_module := "b", target_name := "f", rename := none }
    (by decide)
    (not_grounded_of_no_decls cycleGraph rfl "b" "f")

/-- C1: on the end-to-end scenario (entry file declares pub mod module, pub use
module::Format and pub fn process; module.rs declares pub enum Format), the
post-collection pipeline of build_public_api returns exactly two namespaces:
the crate root with the symbols process and Format, and crate::module with the
single symbol Format, with identical Format source text in both (three symbol
instances in total). -/
theorem c1_end_to_end (crate : String) (out : List Namespace)
    (hout : BuildOutput scenarioGraph crate out) :
    out.length = 2 ∧
    ({ name := crate, symbols := [processSym, formatSym], missing_symbols := [],
       doc_comment := none } : Namespace) ∈ out ∧
    ({ name := crate ++ "::module", symbols := [formatSym], missing_symbols := [],
       doc_comment := none } : Namespace) ∈ out ∧
    (∀ ns₁ ∈ out, ∀ ns₂ ∈ out, ∀ s₁ ∈ ns₁.symbols, ∀ s₂ ∈ ns₂.symbols,
      s₁.name = "Format" → s₂.name = "Format" → s₁.source_code = s₂.source_code) := by
  obtain ⟨res, hres, hperm⟩ := hout
  have hok : resolve_symbols scenarioGraph = .ok scenarioResolution := rfl
  rw [hok] at hres
  injection hres with hres'
  subst hres'
  rw [ConstructOutput, construct_scenario] at hperm
  have key : ∀ s : Symbol, (s = processSym ∨ s = formatSym) → s.name = "Format" →
      s = formatSym := by
    rintro s (rfl | rfl) hn
    · exact absurd hn (by decide)
    · rfl
  refine ⟨?_, ?_, ?_, ?_⟩
  · rw [← hperm.length_eq]
    rfl
  · exact hperm.mem_iff.mp (List.mem_cons_self _ _)
  · exact hperm.mem_iff.mp (List.mem_cons_of_mem _ (List.mem_singleton_self _))
  · intro ns₁ hns₁ ns₂ hns₂ s₁ hs₁ s₂ hs₂ hn₁ hn₂
    have h₁ := hperm.mem_iff.mpr hns₁
    have h₂ := hperm.mem_iff.mpr hns₂
    have d₁ : s₁ = processSym ∨ s₁ = formatSym := by
      rcases List.mem_cons.mp h₁ with rfl | h₁'
      · simpa using hs₁
      · rw [List.mem_singleton] at h₁'
        subst h₁'
        exact Or.inr (by simpa using hs₁)
    have d₂ : s₂ = processSym ∨ s₂ = formatSym := by
      rcases List.mem_cons.mp h₂ with rfl | h₂'
      · simpa using hs₂
      · rw [List.mem_singleton] at h₂'
        subst h₂'
        exact Or.inr (by simpa using hs₂)
    rw [key s₁ d₁ hn₁, key s₂ d₂ hn₂]

/-- Witness for c1_end_to_end at the crate name used by the repository's
integration test. -/
theorem c1_end_to_end_witness :
    (construct_namespaces scenarioResolution "test_crate").length = 2 ∧
    ({ name := "test_crate", symbols := [processSym, formatSym],
       missing_symbols := [], doc_comment := none } : Namespace)
      ∈ construct_namespaces scenarioResolution "test_crate" ∧
    ({ name := "test_crate" ++ "::module", symbols := [formatSym],
       missing_symbols := [], doc_comment := none } : Namespace)
      ∈ construct_namespaces scenarioResolution "test_crate" ∧
    (∀ ns₁ ∈ construct_namespaces scenarioResolution "test_crate",
      ∀ ns₂ ∈ construct_namespaces scenarioResolution "test_crate",
      ∀ s₁ ∈ ns₁.symbols, ∀ s₂ ∈ ns₂.symbols,
      s₁.name = "Format" → s₂.name = "Format" → s₁.source_code = s₂.source_code) :=
  c1_end_to_end "test_crate" _ ⟨scenarioResolution, rfl, List.Perm.refl _⟩

/-- C5 (amended): whenever the per-namespace formatter succeeds on every input
namespace, format_library_context returns exactly the spec's template — one
namespace element per input namespace in the order given — with the trimmed
documentation; for the empty namespace list the artifact is the bare wrapper,
and provided the metadata-derived fields do not themselves contain the
substring delimiting a namespace element, it contains no such substring. -/
theorem c5_template_rendering (md : PackageMetadata) (nss : List Namespace)
    (f : Namespace → Except LaibraryError String) (b : Namespace → String)
    (hok : ∀ ns ∈ nss, f ns = .ok (b ns)) :
    format_library_context md nss f =
      .ok (spec_render md (nss.map fun ns => (ns.name, b ns))) ∧
    spec_render md [] =
      "<library name=\"" ++ md.name ++ "\" version=\"" ++ md.version ++
      "\">\n    <documentation>\n" ++ trimString md.documentation ++
      "\n    </documentation>\n    <api>\n\n    </api>\n</library>" ∧
    (¬ ("<namespace" : String).data <:+: md.name.data →
     ¬ ("<namespace" : String).data <:+: md.version.data →
     ¬ ("<namespace" : String).data <:+: (trimString md.documentation).data →
     ¬ ("<namespace" : String).data <:+: (spec_render md []).data) := by
  refine ⟨?_, spec_render_nil_eq md,
    fun hn hv hd => spec_render_nil_no_namespace_tag md hn hv hd⟩
  rw [format_library_context, build_api_content_ok f b nss hok]
  rfl

/-- Witness for c5_template_rendering at a one-namespace input and the
always-succeeding formatter. -/
theorem c5_template_rendering_witness :
    format_library_context plainMetadata [witnessNs] okFormatter =
      .ok (spec_render plainMetadata ([witnessNs].map fun ns =>
        (ns.name, String.intercalate "\n\n" (ns.symbols.map Symbol.source_code)))) ∧
    spec_render plainMetadata [] =
      "<library name=\"" ++ plainMetadata.name ++ "\" version=\"" ++
      plainMetadata.version ++ "\">\n    <documentation>\n" ++
      trimString plainMetadata.documentation ++
      "\n    </documentation>\n    <api>\n\n    </api>\n</library>" ∧
    (¬ ("<namespace" : String).data <:+: plainMetadata.name.data →
     ¬ ("<namespace" : String).data <:+: plainMetadata.version.data →
     ¬ ("<namespace" : String).data <:+: (trimString plainMetadata.documentation).data →
     ¬ ("<namespace" : String).data <:+: (spec_render plainMetadata []).data) :=
  c5_template_rendering plainMetadata [witnessNs] okFormatter
    (fun ns => String.intercalate "\n\n" (ns.symbols.map Symbol.source_code))
    (fun _ _ => rfl)

/-- C5 counterexample: for an empty namespace list but a documentation field
containing the namespace delimiter, the artifact does contain the substring
delimiting a namespace element, refuting the claim's universal no-substring
statement. -/
theorem c5_metadata_injection_counterexample :
    format_library_context injectionMetadata [] okFormatter =
      .ok ("<library name=\"n\" version=\"v\">\n    <documentation>\n<namespace\n    </documentation>\n    <api>\n\n    </api>\n</library>") ∧
    ("<namespace" : String).data <:+:
      ("<library name=\"n\" version=\"v\">\n    <documentation>\n<namespace\n    </documentation>\n    <api>\n\n    </api>\n</library>" : String).data :=
  ⟨rfl,
   ⟨("<library name=\"n\" version=\"v\">\n    <documentation>\n" : String).data,
    ("\n    </documentation>\n    <api>\n\n    </api>\n</library>" : String).data,
    rfl⟩⟩

end Laibrary
